import Mathlib

set_option autoImplicit false

namespace ImmichMcp

/-! Shallow embedding of the immich-mcp-server core: the response cache,
HTTP error normalization, connection validation, the upload pipeline with
optional album attachment, album membership checking, and tool dispatch.
Each definition is translated from the TypeScript source
(`src/immich/client.ts`, `src/tools/assets-tool.ts`, `src/tools/albums-tool.ts`,
`src/tools/search-tool.ts`, `src/schemas/mcp-schemas.ts`). -/

/-- Model of the JavaScript expression `a || b` for string-valued operands:
an absent value (`undefined`/`null`) and the empty string are falsy. -/
def jsOrStr (a : Option String) (b : String) : String :=
  match a with
  | some s => if s = "" then b else s
  | none => b

/-- Model of the JavaScript expression `a || b` for integer operands:
an absent value and the number `0` are falsy. -/
def jsOrInt (a : Option Int) (b : Int) : Int :=
  match a with
  | some n => if n = 0 then b else n
  | none => b

/-- Truthiness of an optional string value, as JavaScript sees it. -/
def jsTruthyStr (a : Option String) : Bool :=
  match a with
  | some s => s ≠ ""
  | none => false

/-- JavaScript template-literal interpolation of a possibly-absent string:
`undefined` prints as the string "undefined". -/
def jsTemplate (a : Option String) : String :=
  a.getD "undefined"

/-- Model of `String.prototype.toLowerCase`, mapping `Char.toLower` over the
underlying character list (ASCII-faithful). -/
def lowerStr (s : String) : String :=
  String.mk (s.data.map Char.toLower)

/-! ### Association lists: the JavaScript `Map` and plain-object `Record`.
Insertion-ordered list of key/value pairs; the JavaScript containers keep at
most one entry per key, which is the `Nodup` invariant on the key list. -/

/-- Insertion-ordered string-keyed association list. -/
abbrev AList (α : Type) : Type := List (String × α)

/-- JavaScript `Map.get` / `Record` field read: the entry stored under the key. -/
def alGet {α : Type} (c : AList α) (k : String) : Option α :=
  (c.find? (fun p => decide (p.1 = k))).map Prod.snd

/-- JavaScript `Map.set` / `Record` field write: replace the entry in place if
the key is present, otherwise append a fresh entry. -/
def alSet {α : Type} : AList α → String → α → AList α
  | [], k, v => [(k, v)]
  | (k2, v2) :: rest, k, v =>
    if k2 = k then (k, v) :: rest else (k2, v2) :: alSet rest k v

/-- JavaScript `Map.delete`: remove the entry stored under the key. -/
def alDelete {α : Type} : AList α → String → AList α
  | [], _ => []
  | (k2, v2) :: rest, k =>
    if k2 = k then rest else (k2, v2) :: alDelete rest k

/-! ### Response cache (`ImmichApiClient`, search-tool.ts part lines 404-429) -/

/-- One cache slot, as in `this.cache.set(key, { data, timestamp: Date.now() })`. -/
structure CacheEntry (α : Type) where
  data : α
  timestamp : Nat
deriving Repr, DecidableEq

/-- The process-wide cache: a JavaScript `Map` from string cache keys to entries. -/
abbrev Cache (α : Type) : Type := AList (CacheEntry α)

/-- Model of `isCacheValid`: `Date.now() - timestamp < this.cacheTtl`
(monotone clock, so natural subtraction agrees with the source). -/
def isCacheValid (ttl now timestamp : Nat) : Bool :=
  now - timestamp < ttl

/-- Model of `ImmichApiClient.getFromCache`: return the stored data when the
entry is present and still valid; delete the entry when it is present but
expired; return the possibly-updated cache alongside the result. -/
def getFromCache {α : Type} (ttl : Nat) (c : Cache α) (k : String) (now : Nat) :
    Option α × Cache α :=
  match alGet c k with
  | some e =>
    if isCacheValid ttl now e.timestamp then (some e.data, c)
    else (none, alDelete c k)
  | none => (none, c)

/-- Model of `ImmichApiClient.setCache`: unconditionally store the payload
under the key with the current timestamp. -/
def setCache {α : Type} (c : Cache α) (k : String) (v : α) (now : Nat) : Cache α :=
  alSet c k ⟨v, now⟩

/-! ### Cache-key construction (`ImmichApiClient.get`) -/

/-- JSON scalar values appearing in query-parameter objects. -/
inductive JVal where
  | str (s : String)
  | num (n : Int)
  | bool (b : Bool)
deriving Repr, DecidableEq

/-- Rendering of a JSON scalar, as `JSON.stringify` prints it. -/
def JVal.render : JVal → String
  | .str s => "\"" ++ s ++ "\""
  | .num n => toString n
  | .bool b => if b then "true" else "false"

/-- Comma-separated member list of a serialized JSON object, in field order. -/
def renderPairs : List (String × JVal) → String
  | [] => ""
  | [(k, v)] => "\"" ++ k ++ "\":" ++ v.render
  | (k, v) :: rest => "\"" ++ k ++ "\":" ++ v.render ++ "," ++ renderPairs rest

/-- Model of `JSON.stringify` on a parameter object: members are emitted in
insertion order, which is exactly what the JavaScript engine does. -/
def jsonStringify (params : List (String × JVal)) : String :=
  "\x7b" ++ renderPairs params ++ "\x7d"

/-- Model of the cache-key construction in `ImmichApiClient.get`:
`` `GET:${endpoint}:${JSON.stringify(params || {})}` ``. -/
def cacheKey (endpoint : String) (params : Option (List (String × JVal))) : String :=
  "GET:" ++ endpoint ++ ":" ++ jsonStringify (params.getD [])

/-- Strict ordering of parameter-object members by key, used to state the
canonical-serialization (sorted keys) discipline. -/
def paramKeyLt (a b : String × JVal) : Prop :=
  a.1 < b.1

/-! ### Error normalization (the response interceptor in the client constructor) -/

/-- Normalized error shape `ImmichApiError` from the client module. -/
structure ImmichApiError where
  message : String
  statusCode : Nat
  errorCode : Option String
deriving Repr, DecidableEq

/-- The parts of an axios error response the interceptor reads:
`error.response.status`, `error.response.data?.message`, `error.response.data?.error`. -/
structure AxiosResponseInfo where
  status : Nat
  dataMessage : Option String
  dataError : Option String
deriving Repr, DecidableEq

/-- The parts of an axios failure the interceptor reads: an optional response
(absent on pure transport faults) and the message of the error itself. -/
structure AxiosFault where
  response : Option AxiosResponseInfo
  message : Option String
deriving Repr, DecidableEq

/-- Model of the response-error interceptor:
`message` preferring the structured body message, then the transport message,
then the fixed fallback text;
`statusCode: error.response?.status || 500`, `error: error.response?.data?.error`. -/
def normalizeError (e : AxiosFault) : ImmichApiError :=
  { message :=
      jsOrStr (e.response.bind AxiosResponseInfo.dataMessage)
        (jsOrStr e.message "Unknown Immich API error")
    statusCode := (jsOrInt ((e.response.map AxiosResponseInfo.status).map Int.ofNat) 500).toNat
    errorCode := e.response.bind AxiosResponseInfo.dataError }

/-- One dispatch through the client: a call is attempted exactly once (the
second component counts transport attempts); a fault is normalized at the
boundary and returned, never retried. -/
def requestOnce (outcome : Except AxiosFault String) : Except ImmichApiError String × Nat :=
  match outcome with
  | .ok d => (.ok d, 1)
  | .error e => (.error (normalizeError e), 1)

/-! ### Connection validation (`ImmichApiClient.validateConnection`) -/

/-- The fixed ordered candidate list from `validateConnection`. -/
def healthEndpoints : List String :=
  ["/api/users/me", "/api/server/info", "/api/server-info",
   "/api/server/version", "/api/server-info/version"]

/-- Probe candidates in order; stop at the first endpoint the world `w`
accepts.  Returns whether a probe succeeded and the list of endpoints probed. -/
def probeEndpoints (w : String → Bool) : List String → Bool × List String
  | [] => (false, [])
  | e :: rest =>
    if w e then (true, [e])
    else
      let r := probeEndpoints w rest
      (r.1, e :: r.2)

/-- Model of `validateConnection`: try the health endpoints in order, and if
every one fails, fall back to a plain request to `/api`. -/
def validateConnection (w : String → Bool) : Bool × List String :=
  let r := probeEndpoints w healthEndpoints
  if r.1 then (true, r.2)
  else if w "/api" then (true, r.2 ++ ["/api"])
  else (false, r.2 ++ ["/api"])

/-- Specification-side description of which endpoints get probed: every
failing candidate before the first success, then the first success; or all
candidates plus the `/api` fallback when none succeeds. -/
def expectedProbes (w : String → Bool) : List String :=
  match healthEndpoints.find? w with
  | some e => healthEndpoints.takeWhile (fun x => !(w x)) ++ [e]
  | none => healthEndpoints ++ ["/api"]

/-! ### Upload pipeline (`AssetsTool.uploadAssets`, assets-tool.ts part lines 327-395) -/

/-- The fields of a successful `POST /api/assets` upload response the batch
loop reads: `result.id` and `result.status`. -/
structure UploadSuccess where
  id : String
  status : Option String
deriving Repr, DecidableEq

/-- One entry of the `uploaded` sequence of the batch result. -/
structure UploadedEntry where
  filePath : String
  assetId : String
  status : String
deriving Repr, DecidableEq

/-- One entry of the `failed` sequence of the batch result. -/
structure FailedEntry where
  filePath : String
  error : String
deriving Repr, DecidableEq

/-- The per-file upload loop of `uploadAssets`: each path is attempted through
`immichApi.uploadAsset` (modelled by the environment `uenv`, whose error case
carries the optional message of the thrown error); a success is recorded as
the file path with the returned asset id and status (default "created"), a
failure as the file path with the error message (default "Unknown error"), and a
failure never aborts the remaining files. -/
def runUploads (uenv : String → Except (Option String) UploadSuccess) :
    List String → List UploadedEntry × List FailedEntry
  | [] => ([], [])
  | p :: rest =>
    match uenv p with
    | .ok r =>
      let t := runUploads uenv rest
      (⟨p, r.id, jsOrStr r.status "created"⟩ :: t.1, t.2)
    | .error e =>
      let t := runUploads uenv rest
      (t.1, ⟨p, jsOrStr e "Unknown error"⟩ :: t.2)

/-- The fields of an album object the upload pipeline reads. -/
structure Album where
  id : String
  albumName : String
deriving Repr, DecidableEq

/-- Album-related transport calls issued by the upload pipeline:
`GET /api/albums`, `POST /api/albums`, `PUT /api/albums/:id/assets`. -/
inductive AlbumCall where
  | listAlbums
  | createAlbum (albumName : String)
  | addAssets (albumId : String) (assetIds : List String)
deriving Repr, DecidableEq

/-- Outcomes of the album-related remote calls, supplied by the environment. -/
structure AlbumEnv where
  listAlbums : Except (Option String) (List Album)
  createAlbum : String → Except (Option String) String
  addAssets : String → List String → Except (Option String) Unit

/-- The album resolution and attachment stage of `uploadAssets`, entered only
when an album id or name was supplied and at least one upload succeeded.
The whole stage sits in one `try`/`catch` whose handler only logs, so a
thrown error stops the stage but is absorbed: `targetAlbumId` keeps whatever
value it had before the throw, and nothing runs after the attachment call, so
the attachment outcome itself is discarded.  Returns the final
`targetAlbumId` and the album-related call log. -/
def albumStage (aenv : AlbumEnv) (albumId albumName : Option String)
    (assetIds : List String) : Option String × List AlbumCall :=
  if !(jsTruthyStr albumId) && jsTruthyStr albumName then
    match aenv.listAlbums with
    | .error _ => (albumId, [AlbumCall.listAlbums])
    | .ok albums =>
      let name := albumName.getD ""
      match albums.find? (fun a => decide (lowerStr a.albumName = lowerStr name)) with
      | some existing =>
        (some existing.id,
         [AlbumCall.listAlbums, AlbumCall.addAssets existing.id assetIds])
      | none =>
        match aenv.createAlbum name with
        | .error _ => (albumId, [AlbumCall.listAlbums, AlbumCall.createAlbum name])
        | .ok newId =>
          (some newId,
           [AlbumCall.listAlbums, AlbumCall.createAlbum name,
            AlbumCall.addAssets newId assetIds])
  else
    (albumId, [AlbumCall.addAssets (jsTemplate albumId) assetIds])

/-- The overall batch result of `uploadAssets`. -/
structure UploadBatchResult where
  success : Bool
  uploaded : List UploadedEntry
  failed : List FailedEntry
  albumId : Option String
deriving Repr, DecidableEq

/-- Model of `AssetsTool.uploadAssets`: run the per-file loop, then — only if
an album id or name was supplied (JavaScript truthiness) and at least one
file uploaded — run the album stage; return the batch result
`{success: failed.length === 0, uploaded, failed, albumId: targetAlbumId}`
together with the album-related call log. -/
def uploadAssets (uenv : String → Except (Option String) UploadSuccess)
    (aenv : AlbumEnv) (filePaths : List String)
    (albumId albumName : Option String) : UploadBatchResult × List AlbumCall :=
  let up := runUploads uenv filePaths
  if (jsTruthyStr albumId || jsTruthyStr albumName) && decide (0 < up.1.length) then
    let st := albumStage aenv albumId albumName (up.1.map UploadedEntry.assetId)
    ({ success := up.2.isEmpty, uploaded := up.1, failed := up.2, albumId := st.1 }, st.2)
  else
    ({ success := up.2.isEmpty, uploaded := up.1, failed := up.2, albumId := albumId }, [])

/-! ### Album membership check (`AlbumsTool.checkAssetsInAlbum`, albums-tool.ts part lines 328-362) -/

/-- The result shape of `checkAssetsInAlbum`; `results` is a JavaScript
`Record<string, boolean>` built by successive field writes. -/
structure CheckAssetsResult where
  albumId : String
  results : AList Bool
  memberCount : Nat
  nonMemberCount : Nat
deriving Repr, DecidableEq

/-- The per-asset loop of `checkAssetsInAlbum`: for each queried id record its
membership and bump the matching counter. -/
def checkLoop (albumAssetIds : List String) :
    List String → AList Bool → Nat → Nat → AList Bool × Nat × Nat
  | [], res, m, n => (res, m, n)
  | q :: rest, res, m, n =>
    if q ∈ albumAssetIds then
      checkLoop albumAssetIds rest (alSet res q true) (m + 1) n
    else
      checkLoop albumAssetIds rest (alSet res q false) m (n + 1)

/-- Model of `AlbumsTool.checkAssetsInAlbum`, given the asset ids of the
fetched album (the `Set` built from `album.assets`) and the queried ids. -/
def checkAssetsInAlbum (albumId : String) (albumAssetIds : List String)
    (queryIds : List String) : CheckAssetsResult :=
  let r := checkLoop albumAssetIds queryIds [] 0 0
  { albumId := albumId, results := r.1, memberCount := r.2.1, nonMemberCount := r.2.2 }

/-! ### Tool dispatch and validation (assets-tool.ts, search-tool.ts, mcp-schemas.ts) -/

/-- One transport call as issued by a tool handler. -/
structure HttpCall where
  method : String
  endpoint : String
  params : List (String × JVal)
deriving Repr, DecidableEq

/-- Outcome of dispatching one tool invocation, as far as validation is
concerned: either the handler proceeded, or a schema `.parse` threw. -/
inductive ToolOutcome where
  | ok
  | validationError (msg : String)
deriving Repr, DecidableEq

/-- Declared numeric bounds of the `count` field in the published
`assets_get_random` catalog entry: `minimum: 1, maximum: 100, default: 1`. -/
structure NumShape where
  minimum : Int
  maximum : Int
  defaultValue : Int
deriving Repr, DecidableEq

/-- The `count` shape published for `assets_get_random`. -/
def assetsGetRandomCountShape : NumShape :=
  { minimum := 1, maximum := 100, defaultValue := 1 }

/-- Model of `AssetsTool.getRandomAssets`: `const count = args.count || 1;`
then one `GET /api/assets/random` with `{count}` — the raw arguments are
forwarded without any schema validation. -/
def getRandomAssets (count : Option Int) : ToolOutcome × List HttpCall :=
  (ToolOutcome.ok,
   [⟨"GET", "/api/assets/random", [("count", JVal.num (jsOrInt count 1))]⟩])

/-- Raw arguments of the `search_smart` tool, prior to validation (each field
optional at the boundary; the schema decides which are required). -/
structure SmartSearchArgs where
  query : Option String
  city : Option String
  state : Option String
  country : Option String
  make : Option String
  model : Option String
  lensModel : Option String
  type : Option String
  isFavorite : Option Bool
  isArchived : Option Bool
  size : Option Int
  page : Option Int
deriving Repr, DecidableEq

/-- Validated `search_smart` input, after `SmartSearchInputSchema.parse`. -/
structure SmartSearchInput where
  query : String
  city : Option String
  state : Option String
  country : Option String
  make : Option String
  model : Option String
  lensModel : Option String
  type : Option String
  isFavorite : Option Bool
  isArchived : Option Bool
  size : Int
  page : Int
deriving Repr, DecidableEq

/-- Model of `z.number().min(1).max(1000).default(250)`. -/
def parseSize (size : Option Int) : Except String Int :=
  match size with
  | none => .ok 250
  | some s => if 1 ≤ s ∧ s ≤ 1000 then .ok s else .error "size out of range"

/-- Model of `z.number().min(1).default(1)`. -/
def parsePage (page : Option Int) : Except String Int :=
  match page with
  | none => .ok 1
  | some p => if 1 ≤ p then .ok p else .error "page out of range"

/-- Model of the optional IMAGE / VIDEO enum field of the schema. -/
def parseAssetType (t : Option String) : Except String (Option String) :=
  match t with
  | none => .ok none
  | some s => if s = "IMAGE" ∨ s = "VIDEO" then .ok (some s) else .error "invalid enum value"

/-- Model of `SmartSearchInputSchema.parse`: `query` is required and must be
non-empty; `size` and `page` must lie in their declared ranges (defaults
apply when absent); `type` must be one of the declared enum values. -/
def parseSmartSearch (args : SmartSearchArgs) : Except String SmartSearchInput := do
  let q ← match args.query with
    | none => Except.error "Required"
    | some q =>
      if 1 ≤ q.length then Except.ok q else Except.error "Search query is required"
  let t ← parseAssetType args.type
  let s ← parseSize args.size
  let p ← parsePage args.page
  Except.ok
    { query := q, city := args.city, state := args.state, country := args.country,
      make := args.make, model := args.model, lensModel := args.lensModel,
      type := t, isFavorite := args.isFavorite, isArchived := args.isArchived,
      size := s, page := p }

/-- Optionally extend the parameter list with a string filter, as the
handler lines `if (input.city) params.city = input.city` do (JavaScript
truthiness: absent and empty string are skipped). -/
def addStrParam (params : List (String × JVal)) (k : String) (v : Option String) :
    List (String × JVal) :=
  if jsTruthyStr v then params ++ [(k, JVal.str (v.getD ""))] else params

/-- Optionally extend the parameter list with a boolean filter, as the
handler lines `if (input.isFavorite !== undefined)` do. -/
def addBoolParam (params : List (String × JVal)) (k : String) (v : Option Bool) :
    List (String × JVal) :=
  match v with
  | some b => params ++ [(k, JVal.bool b)]
  | none => params

/-- Model of `SearchTool.smartSearch`: validate the raw arguments with
`SmartSearchInputSchema.parse` (a parse failure throws before any transport
call), then build the parameter object and issue one
`GET /api/search/smart`. -/
def smartSearch (args : SmartSearchArgs) : ToolOutcome × List HttpCall :=
  match parseSmartSearch args with
  | .error e => (ToolOutcome.validationError e, [])
  | .ok input =>
    let params := [("query", JVal.str input.query), ("page", JVal.num input.page),
                   ("size", JVal.num input.size)]
    let params := addStrParam params "city" input.city
    let params := addStrParam params "state" input.state
    let params := addStrParam params "country" input.country
    let params := addStrParam params "make" input.make
    let params := addStrParam params "model" input.model
    let params := addStrParam params "lensModel" input.lensModel
    let params := addStrParam params "type" input.type
    let params := addBoolParam params "isFavorite" input.isFavorite
    let params := addBoolParam params "isArchived" input.isArchived
    (ToolOutcome.ok, [⟨"GET", "/api/search/smart", params⟩])

/-! ### Concrete environments used to instantiate the theorems -/

/-- Upload environment where exactly the file `/x/b.jpg` is missing (its
upload throws `File not found: ...`) and every other path uploads fine. -/
def uenvWitness : String → Except (Option String) UploadSuccess := fun q =>
  if q = "/x/b.jpg" then Except.error (some "File not found: /x/b.jpg")
  else Except.ok ⟨"asset-" ++ q, none⟩

/-- Album environment with one existing album named "Summer Trip". -/
def aenvWitness : AlbumEnv :=
  { listAlbums := Except.ok [⟨"alb1", "Summer Trip"⟩]
    createAlbum := fun _ => Except.ok "new-album"
    addAssets := fun _ _ => Except.ok () }

/-! ## Supporting lemmas -/

theorem alGet_alSet_self {α : Type} (c : AList α) (k : String) (v : α) :
    alGet (alSet c k v) k = some v := by
  induction c with
  | nil => simp [alSet, alGet, List.find?]
  | cons hd tl ih =>
    obtain ⟨k2, v2⟩ := hd
    by_cases h : k2 = k
    · simp [alSet, h, alGet, List.find?]
    · simpa [alSet, h, alGet, List.find?] using ih

theorem alGet_alSet_ne {α : Type} (c : AList α) {k k2 : String} (v : α)
    (h : k2 ≠ k) : alGet (alSet c k v) k2 = alGet c k2 := by
  induction c with
  | nil =>
    simp only [alSet, alGet, List.find?]
    rw [show (decide (k = k2)) = false by simp; exact fun h2 => h h2.symm]
  | cons hd tl ih =>
    obtain ⟨k3, v3⟩ := hd
    by_cases h3 : k3 = k
    · subst h3
      simp only [alSet, if_pos rfl, alGet, List.find?]
      rw [show (decide (k3 = k2)) = false by simp; exact fun h2 => h h2.symm]
    · simp only [alSet, if_neg h3, alGet, List.find?] at ih ⊢
      by_cases h4 : k3 = k2
      · simp [h4]
      · rw [show (decide (k3 = k2)) = false by simp [h4]]
        exact ih

theorem mem_keys_of_alGet_some {α : Type} {c : AList α} {k : String}
    {v : α} (h : alGet c k = some v) : k ∈ c.map Prod.fst := by
  induction c with
  | nil => simp [alGet, List.find?] at h
  | cons hd tl ih =>
    obtain ⟨k2, v2⟩ := hd
    by_cases hk : k2 = k
    · simp [hk]
    · simp only [alGet, List.find?] at h
      rw [show (decide (k2 = k)) = false by simp [hk]] at h
      exact List.mem_cons_of_mem _ (ih h)

theorem alGet_alDelete_self {α : Type} {c : AList α} (k : String)
    (hnd : (c.map Prod.fst).Nodup) : alGet (alDelete c k) k = none := by
  induction c with
  | nil => simp [alDelete, alGet, List.find?]
  | cons hd tl ih =>
    obtain ⟨k2, v2⟩ := hd
    simp only [List.map_cons, List.nodup_cons] at hnd
    by_cases hk : k2 = k
    · subst hk
      simp only [alDelete, if_pos rfl]
      cases hg : alGet tl k2 with
      | none => exact hg
      | some v => exact absurd (mem_keys_of_alGet_some hg) hnd.1
    · simp only [alDelete, if_neg hk, alGet, List.find?]
      rw [show (decide (k2 = k)) = false by simp [hk]]
      exact ih hnd.2

theorem keys_alSet {α : Type} (c : AList α) (k : String) (v : α) :
    (alSet c k v).map Prod.fst =
      if k ∈ c.map Prod.fst then c.map Prod.fst else c.map Prod.fst ++ [k] := by
  induction c with
  | nil => simp [alSet]
  | cons hd tl ih =>
    obtain ⟨k2, v2⟩ := hd
    by_cases hk : k2 = k
    · subst hk
      simp [alSet]
    · have hk2 : ¬(k = k2) := fun h => hk h.symm
      by_cases hmem : k ∈ tl.map Prod.fst
      · simp [alSet, hk, ih, hmem, hk2]
      · simp [alSet, hk, ih, hmem, hk2]

theorem nodup_keys_alSet {α : Type} {c : AList α} (k : String) (v : α)
    (hnd : (c.map Prod.fst).Nodup) : ((alSet c k v).map Prod.fst).Nodup := by
  rw [keys_alSet]
  by_cases hmem : k ∈ c.map Prod.fst
  · simpa [hmem] using hnd
  · simp [hmem, List.nodup_append, hnd]

/-! ## Claim theorems -/

/-- C2: for every cache key and payload, a lookup performed before the TTL has
elapsed since the `set` returns the stored payload; a lookup performed once
the TTL has elapsed returns absent, and the expired entry is removed from the
cache by that lookup. -/
theorem cache_set_get_ttl {α : Type} (ttl : Nat) (c : Cache α) (k : String)
    (v : α) (now1 now2 : Nat) (hnd : (c.map Prod.fst).Nodup) :
    (now2 - now1 < ttl →
      (getFromCache ttl (setCache c k v now1) k now2).1 = some v) ∧
    (ttl ≤ now2 - now1 →
      (getFromCache ttl (setCache c k v now1) k now2).1 = none ∧
      alGet (getFromCache ttl (setCache c k v now1) k now2).2 k = none) := by
  have hget : alGet (alSet c k (⟨v, now1⟩ : CacheEntry α)) k = some ⟨v, now1⟩ :=
    alGet_alSet_self c k ⟨v, now1⟩
  constructor
  · intro hlt
    simp [getFromCache, setCache, hget, isCacheValid, hlt]
  · intro hge
    have hvalid : isCacheValid ttl now2 now1 = false := by
      simp [isCacheValid]
      omega
    refine ⟨by simp [getFromCache, setCache, hget, hvalid], ?_⟩
    have hnd2 : ((alSet c k (⟨v, now1⟩ : CacheEntry α)).map Prod.fst).Nodup :=
      nodup_keys_alSet k ⟨v, now1⟩ hnd
    simp only [getFromCache, hget, hvalid, Bool.false_eq_true, if_false, setCache]
    exact alGet_alDelete_self k hnd2

/-- Witness for C2 at a concrete instance: TTL 5, store at time 10; a lookup
at time 12 returns the payload, a lookup at time 20 returns absent. -/
theorem cache_set_get_ttl_witness :
    (getFromCache 5 (setCache ([] : Cache Nat) "k" 42 10) "k" 12).1 = some 42 ∧
    (getFromCache 5 (setCache ([] : Cache Nat) "k" 42 10) "k" 20).1 = none :=
  ⟨(cache_set_get_ttl 5 [] "k" 42 10 12 (by simp)).1 (by norm_num),
   ((cache_set_get_ttl 5 [] "k" 42 10 20 (by simp)).2 (by norm_num)).1⟩

instance : IsAntisymm (String × JVal) paramKeyLt :=
  ⟨fun _ _ h1 h2 => absurd h2 (lt_asymm h1)⟩

/-- C6 counterexample: the two parameter objects `a=1, b=2` and `b=2, a=1`
are equal as key-value maps (a permutation with no duplicate keys), yet the
cache keys built by `ImmichApiClient.get` differ, because `JSON.stringify`
serializes members in insertion order. -/
theorem cacheKey_insertion_order_counterexample :
    List.Perm [("a", JVal.num 1), ("b", JVal.num 2)]
      [("b", JVal.num 2), ("a", JVal.num 1)] ∧
    (([("a", JVal.num 1), ("b", JVal.num 2)] :
        List (String × JVal)).map Prod.fst).Nodup ∧
    cacheKey "/api/search" (some [("a", JVal.num 1), ("b", JVal.num 2)]) ≠
      cacheKey "/api/search" (some [("b", JVal.num 2), ("a", JVal.num 1)]) := by
  refine ⟨List.Perm.swap _ _ _, by decide, by decide⟩

/-- C6 (amended): the cache key is deterministic in method, endpoint and the
insertion-ordered serialization of the parameter object; two logically
identical GET requests collide on the same key provided their parameter
objects present the keys in a common canonical order (e.g. both sorted by
key), while differing insertion orders may produce different keys. -/
theorem cacheKey_sorted_canonical (endpoint : String)
    (l1 l2 : List (String × JVal)) (h1 : List.Sorted paramKeyLt l1)
    (h2 : List.Sorted paramKeyLt l2) (hp : List.Perm l1 l2) :
    cacheKey endpoint (some l1) = cacheKey endpoint (some l2) := by
  rw [List.eq_of_perm_of_sorted hp h1 h2]

/-- Witness for the amended C6 at a concrete sorted parameter object. -/
theorem cacheKey_sorted_canonical_witness :
    cacheKey "/api/search" (some [("a", JVal.num 1), ("b", JVal.num 2)]) =
      cacheKey "/api/search" (some [("a", JVal.num 1), ("b", JVal.num 2)]) := by
  have hs : List.Sorted paramKeyLt [("a", JVal.num 1), ("b", JVal.num 2)] := by
    refine List.sorted_cons.mpr ⟨?_, List.sorted_singleton _⟩
    intro b hb
    simp only [List.mem_singleton] at hb
    subst hb
    show ("a" : String) < "b"
    rw [String.lt_iff_toList_lt]
    decide
  exact cacheKey_sorted_canonical "/api/search" _ _ hs hs (List.Perm.refl _)

/-- C7: a remote call failing with HTTP 404 and structured body message
"not found" is normalized, at the transport boundary and in a single attempt
with no retry, into an error with `statusCode` 404 and `message` "not found"
(the structured body is preferred over the message of the transport itself). -/
theorem normalize_404_not_found (e : AxiosFault) (r : AxiosResponseInfo)
    (hresp : e.response = some r) (hstatus : r.status = 404)
    (hmsg : r.dataMessage = some "not found") :
    requestOnce (Except.error e) =
      (Except.error ⟨"not found", 404, r.dataError⟩, 1) := by
  simp [requestOnce, normalizeError, hresp, hstatus, hmsg, jsOrStr, jsOrInt]

/-- Witness for C7 at a concrete axios fault carrying a 404 response. -/
theorem normalize_404_not_found_witness :
    requestOnce (Except.error
      ⟨some ⟨404, some "not found", none⟩,
       some "Request failed with status code 404"⟩) =
      (Except.error ⟨"not found", 404, none⟩, 1) :=
  normalize_404_not_found _ ⟨404, some "not found", none⟩ rfl rfl rfl

theorem probeEndpoints_eq (w : String → Bool) (l : List String) :
    probeEndpoints w l =
      (l.any w,
       match l.find? w with
       | some e => l.takeWhile (fun x => !(w x)) ++ [e]
       | none => l) := by
  induction l with
  | nil => simp [probeEndpoints]
  | cons e rest ih =>
    by_cases hw : w e
    · simp [probeEndpoints, hw, List.find?, List.any]
    · cases hf : rest.find? w with
      | some e2 => simp [probeEndpoints, hw, ih, hf]
      | none => simp [probeEndpoints, hw, ih, hf]

/-- C8: connection validation succeeds exactly when some health-check
candidate or the `/api` root fallback responds; the probe log stops at the
first successful candidate (later candidates are never probed) and reaches
the fallback only when every candidate fails; in particular a deployment
where only the root path responds still validates successfully. -/
theorem validateConnection_spec (w : String → Bool) :
    (validateConnection w).1 = (healthEndpoints.any w || w "/api") ∧
    (validateConnection w).2 = expectedProbes w ∧
    (validateConnection (fun e => decide (e = "/api"))).1 = true := by
  refine ⟨?_, ?_, by decide⟩ <;>
  · cases hf : healthEndpoints.find? w with
    | some e =>
      have hmem := List.mem_of_find?_eq_some hf
      have hpe : w e = true := List.find?_some hf
      have hany : healthEndpoints.any w = true :=
        List.any_eq_true.mpr ⟨e, hmem, hpe⟩
      simp [validateConnection, probeEndpoints_eq, expectedProbes, hf, hany]
    | none =>
      have hany : healthEndpoints.any w = false := by
        simp only [List.any_eq_false]
        intro a ha
        have := List.find?_eq_none.mp hf a ha
        simp [this]
      cases hapi : w "/api" <;>
        simp [validateConnection, probeEndpoints_eq, expectedProbes, hf, hany, hapi]

theorem runUploads_append (uenv : String → Except (Option String) UploadSuccess)
    (l1 l2 : List String) :
    runUploads uenv (l1 ++ l2) =
      ((runUploads uenv l1).1 ++ (runUploads uenv l2).1,
       (runUploads uenv l1).2 ++ (runUploads uenv l2).2) := by
  induction l1 with
  | nil => simp [runUploads]
  | cons p rest ih =>
    cases h : uenv p <;> simp [runUploads, h, ih]

theorem runUploads_all_ok (uenv : String → Except (Option String) UploadSuccess)
    (l : List String) (h : ∀ q ∈ l, ∃ r, uenv q = Except.ok r) :
    (runUploads uenv l).2 = [] ∧
    (runUploads uenv l).1.map UploadedEntry.filePath = l := by
  induction l with
  | nil => simp [runUploads]
  | cons p rest ih =>
    obtain ⟨r, hr⟩ := h p (List.mem_cons_self p rest)
    have ih2 := ih (fun q hq => h q (List.mem_cons_of_mem _ hq))
    simp [runUploads, hr, ih2.1, ih2.2]

theorem runUploads_all_fail (uenv : String → Except (Option String) UploadSuccess)
    (l : List String) (h : ∀ q ∈ l, ∃ e, uenv q = Except.error e) :
    (runUploads uenv l).1 = [] := by
  induction l with
  | nil => simp [runUploads]
  | cons p rest ih =>
    obtain ⟨e, he⟩ := h p (List.mem_cons_self p rest)
    have ih2 := ih (fun q hq => h q (List.mem_cons_of_mem _ hq))
    simp [runUploads, he, ih2]

theorem runUploads_ne_nil_of_ok (uenv : String → Except (Option String) UploadSuccess)
    {l : List String} {q : String} {r : UploadSuccess}
    (hq : q ∈ l) (hr : uenv q = Except.ok r) : (runUploads uenv l).1 ≠ [] := by
  induction l with
  | nil => cases hq
  | cons p rest ih =>
    rcases List.mem_cons.mp hq with h | h
    · subst h
      simp [runUploads, hr]
    · cases hp : uenv p with
      | ok r2 => simp [runUploads, hp]
      | error e =>
        simp only [runUploads, hp]
        exact ih h

theorem uploadAssets_fields (uenv : String → Except (Option String) UploadSuccess)
    (aenv : AlbumEnv) (fps : List String) (albumId albumName : Option String) :
    (uploadAssets uenv aenv fps albumId albumName).1.uploaded = (runUploads uenv fps).1 ∧
    (uploadAssets uenv aenv fps albumId albumName).1.failed = (runUploads uenv fps).2 ∧
    (uploadAssets uenv aenv fps albumId albumName).1.success = (runUploads uenv fps).2.isEmpty := by
  unfold uploadAssets
  by_cases hc : ((jsTruthyStr albumId || jsTruthyStr albumName)
      && decide (0 < (runUploads uenv fps).1.length)) = true
  · simp [hc]
  · simp [hc]

/-- C1: in a batch in which exactly one file fails to upload (e.g. it does not
exist) and every other file succeeds, the failure does not abort the batch:
the result has all other files uploaded in the original input order, exactly
one failed entry recording the path and error message of the failing file, and
`success = false`. -/
theorem uploadAssets_one_missing_file
    (uenv : String → Except (Option String) UploadSuccess) (aenv : AlbumEnv)
    (albumId albumName : Option String) (pre post : List String) (p : String)
    (em : Option String)
    (hok : ∀ q ∈ pre ++ post, ∃ r, uenv q = Except.ok r)
    (herr : uenv p = Except.error em) :
    (uploadAssets uenv aenv (pre ++ p :: post) albumId albumName).1.uploaded.length
        = pre.length + post.length ∧
    (uploadAssets uenv aenv (pre ++ p :: post) albumId albumName).1.uploaded.map
        UploadedEntry.filePath = pre ++ post ∧
    (uploadAssets uenv aenv (pre ++ p :: post) albumId albumName).1.failed
        = [⟨p, jsOrStr em "Unknown error"⟩] ∧
    (uploadAssets uenv aenv (pre ++ p :: post) albumId albumName).1.success = false := by
  have hfields := uploadAssets_fields uenv aenv (pre ++ p :: post) albumId albumName
  have hpre := runUploads_all_ok uenv pre (fun q hq => hok q (List.mem_append_left _ hq))
  have hpost := runUploads_all_ok uenv post (fun q hq => hok q (List.mem_append_right _ hq))
  have happ := runUploads_append uenv pre (p :: post)
  have hcons : runUploads uenv (p :: post)
      = ((runUploads uenv post).1,
         (⟨p, jsOrStr em "Unknown error"⟩ : FailedEntry) :: (runUploads uenv post).2) := by
    simp [runUploads, herr]
  rw [hcons] at happ
  have hlenpre : (runUploads uenv pre).1.length = pre.length := by
    have := congrArg List.length hpre.2
    simpa using this
  have hlenpost : (runUploads uenv post).1.length = post.length := by
    have := congrArg List.length hpost.2
    simpa using this
  refine ⟨?_, ?_, ?_, ?_⟩
  · rw [hfields.1, happ]
    simp [hlenpre, hlenpost]
  · rw [hfields.1, happ]
    simp [hpre.2, hpost.2]
  · rw [hfields.2.1, happ]
    simp [hpre.1, hpost.1]
  · rw [hfields.2.2, happ]
    simp [hpre.1, hpost.1]

/-- Witness for C1: a three-file batch whose middle file is missing yields
two uploads in input order, one failed entry with the missing path, and
overall failure. -/
theorem uploadAssets_one_missing_file_witness :
    (uploadAssets uenvWitness aenvWitness ["/x/a.jpg", "/x/b.jpg", "/x/c.jpg"]
        none none).1.uploaded.length = 2 ∧
    (uploadAssets uenvWitness aenvWitness ["/x/a.jpg", "/x/b.jpg", "/x/c.jpg"]
        none none).1.uploaded.map UploadedEntry.filePath = ["/x/a.jpg", "/x/c.jpg"] ∧
    (uploadAssets uenvWitness aenvWitness ["/x/a.jpg", "/x/b.jpg", "/x/c.jpg"]
        none none).1.failed = [⟨"/x/b.jpg", "File not found: /x/b.jpg"⟩] ∧
    (uploadAssets uenvWitness aenvWitness ["/x/a.jpg", "/x/b.jpg", "/x/c.jpg"]
        none none).1.success = false := by
  have h := uploadAssets_one_missing_file uenvWitness aenvWitness none none
    ["/x/a.jpg"] ["/x/c.jpg"] "/x/b.jpg" (some "File not found: /x/b.jpg")
    (by
      intro q hq
      simp only [List.cons_append, List.nil_append, List.mem_cons,
        List.not_mem_nil, or_false] at hq
      rcases hq with h1 | h1
      · subst h1
        exact ⟨⟨"asset-" ++ "/x/a.jpg", none⟩, by simp [uenvWitness]⟩
      · subst h1
        exact ⟨⟨"asset-" ++ "/x/c.jpg", none⟩, by simp [uenvWitness]⟩)
    (by simp [uenvWitness])
  simpa [jsOrStr] using h

/-- C4: a failure in album resolution or album attachment is absorbed and
never propagated: the `success`, `uploaded` and `failed` fields of the batch
result are determined solely by the per-file uploads (they are identical
under any two album environments, in particular a failing and a working
one), and `success` is true exactly when the `failed` sequence is empty. -/
theorem uploadAssets_album_errors_absorbed
    (uenv : String → Except (Option String) UploadSuccess)
    (aenv1 aenv2 : AlbumEnv) (fps : List String)
    (albumId albumName : Option String) :
    (uploadAssets uenv aenv1 fps albumId albumName).1.success
        = (uploadAssets uenv aenv2 fps albumId albumName).1.success ∧
    (uploadAssets uenv aenv1 fps albumId albumName).1.uploaded
        = (uploadAssets uenv aenv2 fps albumId albumName).1.uploaded ∧
    (uploadAssets uenv aenv1 fps albumId albumName).1.failed
        = (uploadAssets uenv aenv2 fps albumId albumName).1.failed ∧
    ((uploadAssets uenv aenv1 fps albumId albumName).1.success = true ↔
      (uploadAssets uenv aenv1 fps albumId albumName).1.failed = []) := by
  have h1 := uploadAssets_fields uenv aenv1 fps albumId albumName
  have h2 := uploadAssets_fields uenv aenv2 fps albumId albumName
  refine ⟨by rw [h1.2.2, h2.2.2], by rw [h1.1, h2.1], by rw [h1.2.1, h2.2.1], ?_⟩
  rw [h1.2.2, h1.2.1]
  simp [List.isEmpty_iff]

/-- C3: in a batch supplying an album name but no album id, with at least one
successful upload and a successful album listing: if the name of some album
matches the supplied name case-insensitively, the uploads are attached to
the identifier of that album, no album-creation call is made, and that
identifier is the `albumId` of the batch result; otherwise an album is created with exactly
the supplied name, the uploads are attached to the new identifier, and the
new identifier is the `albumId` of the batch result. -/
theorem uploadAssets_albumName_find_or_create
    (uenv : String → Except (Option String) UploadSuccess) (aenv : AlbumEnv)
    (fps : List String) (name : String) (albums : List Album)
    (hname : name ≠ "")
    (hlist : aenv.listAlbums = Except.ok albums)
    (hup : (runUploads uenv fps).1 ≠ []) :
    (∀ a, albums.find? (fun a2 => decide (lowerStr a2.albumName = lowerStr name)) = some a →
      (uploadAssets uenv aenv fps none (some name)).1.albumId = some a.id ∧
      (∀ n2, AlbumCall.createAlbum n2 ∉ (uploadAssets uenv aenv fps none (some name)).2) ∧
      AlbumCall.addAssets a.id
          ((runUploads uenv fps).1.map UploadedEntry.assetId)
        ∈ (uploadAssets uenv aenv fps none (some name)).2) ∧
    (albums.find? (fun a2 => decide (lowerStr a2.albumName = lowerStr name)) = none →
      ∀ nid, aenv.createAlbum name = Except.ok nid →
        (uploadAssets uenv aenv fps none (some name)).1.albumId = some nid ∧
        AlbumCall.createAlbum name ∈ (uploadAssets uenv aenv fps none (some name)).2 ∧
        AlbumCall.addAssets nid
            ((runUploads uenv fps).1.map UploadedEntry.assetId)
          ∈ (uploadAssets uenv aenv fps none (some name)).2) := by
  have hcond : ((jsTruthyStr none || jsTruthyStr (some name))
      && decide (0 < (runUploads uenv fps).1.length)) = true := by
    simp [jsTruthyStr, hname, List.length_pos, hup]
  constructor
  · intro a hfind
    unfold uploadAssets
    simp only [hcond, if_pos]
    unfold albumStage
    simp [jsTruthyStr, hname, hlist, hfind]
  · intro hfind nid hcreate
    unfold uploadAssets
    simp only [hcond, if_pos]
    unfold albumStage
    simp [jsTruthyStr, hname, hlist, hfind, hcreate]

/-- Witness for C3: uploading one file with album name "summer trip" while an
album stored as "Summer Trip" exists attaches to the existing album `alb1`
and performs no creation call. -/
theorem uploadAssets_albumName_find_or_create_witness :
    (uploadAssets uenvWitness aenvWitness ["/x/a.jpg"] none (some "summer trip")).1.albumId
        = some "alb1" ∧
    (∀ n2, AlbumCall.createAlbum n2
        ∉ (uploadAssets uenvWitness aenvWitness ["/x/a.jpg"] none (some "summer trip")).2) := by
  have h := uploadAssets_albumName_find_or_create uenvWitness aenvWitness
    ["/x/a.jpg"] "summer trip" [⟨"alb1", "Summer Trip"⟩]
    (by decide) rfl
    (by simp [runUploads, uenvWitness])
  have hfind : List.find?
      (fun a2 => decide (lowerStr a2.albumName = lowerStr "summer trip"))
      [(⟨"alb1", "Summer Trip"⟩ : Album)] = some ⟨"alb1", "Summer Trip"⟩ := by
    decide
  have h2 := h.1 ⟨"alb1", "Summer Trip"⟩ hfind
  exact ⟨h2.1, h2.2.1⟩

/-- C10: when a caller-supplied album id is present but no file uploads
successfully, the album stage is skipped entirely (no album-related transport
call), yet the `albumId` field of the batch result still reports the id the
caller supplied. -/
theorem uploadAssets_albumId_zero_success
    (uenv : String → Except (Option String) UploadSuccess) (aenv : AlbumEnv)
    (fps : List String) (aId : String) (albumName : Option String)
    (hId : aId ≠ "")
    (hfail : ∀ q ∈ fps, ∃ e, uenv q = Except.error e) :
    (uploadAssets uenv aenv fps (some aId) albumName).2 = [] ∧
    (uploadAssets uenv aenv fps (some aId) albumName).1.albumId = some aId := by
  have hups := runUploads_all_fail uenv fps hfail
  unfold uploadAssets
  simp [hups]

/-- Witness for C10: a one-file batch whose only file is missing, with album
id "album-7" supplied, makes no album call and returns albumId "album-7". -/
theorem uploadAssets_albumId_zero_success_witness :
    (uploadAssets uenvWitness aenvWitness ["/x/b.jpg"] (some "album-7") none).2 = [] ∧
    (uploadAssets uenvWitness aenvWitness ["/x/b.jpg"] (some "album-7") none).1.albumId
        = some "album-7" :=
  uploadAssets_albumId_zero_success uenvWitness aenvWitness ["/x/b.jpg"] "album-7" none
    (by decide)
    (by
      intro q hq
      simp only [List.mem_singleton] at hq
      subst hq
      exact ⟨some "File not found: /x/b.jpg", by simp [uenvWitness]⟩)

theorem checkLoop_spec (S : List String) (qs : List String) (res : AList Bool)
    (m n : Nat) :
    (checkLoop S qs res m n).2.1 = m + qs.countP (fun q => decide (q ∈ S)) ∧
    (checkLoop S qs res m n).2.2 = n + qs.countP (fun q => !decide (q ∈ S)) ∧
    (∀ k, alGet (checkLoop S qs res m n).1 k =
      if k ∈ qs then some (decide (k ∈ S)) else alGet res k) := by
  induction qs generalizing res m n with
  | nil => simp [checkLoop]
  | cons q rest ih =>
    by_cases hq : q ∈ S
    · have ihq := ih (alSet res q true) (m + 1) n
      refine ⟨?_, ?_, ?_⟩
      · rw [checkLoop, if_pos hq, ihq.1]
        simp [List.countP_cons, hq]
        omega
      · rw [checkLoop, if_pos hq, ihq.2.1]
        simp [List.countP_cons, hq]
      · intro k
        rw [checkLoop, if_pos hq, ihq.2.2 k]
        by_cases hkr : k ∈ rest
        · simp [hkr]
        · by_cases hkq : k = q
          · subst hkq
            simp [hkr, hq, alGet_alSet_self]
          · simp [hkr, hkq, alGet_alSet_ne res true hkq]
    · have ihq := ih (alSet res q false) m (n + 1)
      refine ⟨?_, ?_, ?_⟩
      · rw [checkLoop, if_neg hq, ihq.1]
        simp [List.countP_cons, hq]
      · rw [checkLoop, if_neg hq, ihq.2.1]
        simp [List.countP_cons, hq]
        omega
      · intro k
        rw [checkLoop, if_neg hq, ihq.2.2 k]
        by_cases hkr : k ∈ rest
        · simp [hkr]
        · by_cases hkq : k = q
          · subst hkq
            simp [hkr, hq, alGet_alSet_self]
          · simp [hkr, hkq, alGet_alSet_ne res false hkq]

/-- C9: for an album holding asset ids `S` and a non-empty queried id list
`Q`, `checkAssetsInAlbum` returns a results record assigning `true` exactly
to queried ids in `S` and `false` to the other queried ids (no entry for ids
not queried), with `memberCount` the number of queried ids (with
multiplicity) in `S` and `nonMemberCount` the number not in `S`. -/
theorem checkAssetsInAlbum_spec (albumId : String) (S Q : List String)
    (hQ : Q ≠ []) :
    (checkAssetsInAlbum albumId S Q).albumId = albumId ∧
    (checkAssetsInAlbum albumId S Q).memberCount
        = Q.countP (fun q => decide (q ∈ S)) ∧
    (checkAssetsInAlbum albumId S Q).nonMemberCount
        = Q.countP (fun q => !decide (q ∈ S)) ∧
    (∀ k, alGet (checkAssetsInAlbum albumId S Q).results k =
      if k ∈ Q then some (decide (k ∈ S)) else none) := by
  have h := checkLoop_spec S Q [] 0 0
  unfold checkAssetsInAlbum
  refine ⟨rfl, by simpa using h.1, by simpa using h.2.1, fun k => ?_⟩
  have h3 := h.2.2 k
  simpa [alGet] using h3

/-- Witness for C9 at the example given in the specification: album ids a, b and query
a, c give results a = true, c = false, memberCount 1, nonMemberCount 1. -/
theorem checkAssetsInAlbum_spec_witness :
    (checkAssetsInAlbum "alb" ["a", "b"] ["a", "c"]).memberCount = 1 ∧
    (checkAssetsInAlbum "alb" ["a", "b"] ["a", "c"]).nonMemberCount = 1 ∧
    alGet (checkAssetsInAlbum "alb" ["a", "b"] ["a", "c"]).results "a" = some true ∧
    alGet (checkAssetsInAlbum "alb" ["a", "b"] ["a", "c"]).results "c" = some false := by
  have h := checkAssetsInAlbum_spec "alb" ["a", "b"] ["a", "c"] (by decide)
  refine ⟨?_, ?_, ?_, ?_⟩
  · rw [h.2.1]
    decide
  · rw [h.2.2.1]
    decide
  · rw [h.2.2.2 "a"]
    decide
  · rw [h.2.2.2 "c"]
    decide

/-- C5 counterexample: dispatching `assets_get_random` with `count = 500`,
which violates the declared input shape (`maximum: 100`), does not raise a
validation error and performs a transport call carrying `count = 500`: the
handler forwards the raw arguments without schema validation. -/
theorem getRandomAssets_no_validation_counterexample :
    (getRandomAssets (some 500)).1 = ToolOutcome.ok ∧
    (getRandomAssets (some 500)).2 =
      [⟨"GET", "/api/assets/random", [("count", JVal.num 500)]⟩] ∧
    assetsGetRandomCountShape.maximum < 500 := by
  refine ⟨rfl, by decide, by decide⟩

/-- C5 (amended): dispatching `search_smart` with raw arguments that violate
its declared input shape surfaces a validation error immediately, with no
transport call made; this per-tool guarantee does not extend to every
published tool, since `assets_get_random` forwards its raw arguments to the
transport without validation. -/
theorem smartSearch_validation_no_call (args : SmartSearchArgs) (e : String)
    (h : parseSmartSearch args = Except.error e) :
    smartSearch args = (ToolOutcome.validationError e, []) := by
  simp [smartSearch, h]

/-- Witness for the amended C5: `search_smart` with the required `query`
field missing fails validation and issues no transport call. -/
theorem smartSearch_validation_no_call_witness :
    smartSearch ⟨none, none, none, none, none, none,
        none, none, none, none, none, none⟩
      = (ToolOutcome.validationError "Required", []) :=
  smartSearch_validation_no_call _ "Required" rfl

end ImmichMcp
